import Mathlib

/-!
Verification development for the resale-data-engine repository.

This file gives a shallow embedding of the ingestion pipeline
(`src/jobs/backfill_ebay.py`), the fetch classifier (`src/data_fetch.py`),
the model-input preparation and trend fit (`src/ml/predictor.py`) and the
dashboard trend aggregation (`src/dashboard.py`), and proves or refutes the
frozen claims about them.

Conventions of the embedding:
* Python values appearing in the JSON-shaped payloads are modelled by the
  inductive type `PyVal` (None, bool, int, float, str, list, dict with
  string keys — the shapes that occur in the marketplace API payloads).
* Fallible Python operations (attribute access on a non-dict, indexing,
  `float()` / `int()` conversions) are modelled in the `Except PyErr`
  monad, so that a raised exception is an explicit value.
* Floats are modelled as exact rationals (`ℚ`); machine timestamps are
  modelled as integer seconds since the epoch.
-/

/-- Python exception kinds that the embedded code can raise. -/
inductive PyErr where
  | attributeError
  | keyError
  | indexError
  | typeError
  | valueError
deriving DecidableEq, Repr

/-- A Python value as it occurs in the marketplace-API JSON payloads:
`None`, booleans, ints, floats (modelled exactly as rationals), strings,
lists, and dicts with string keys. -/
inductive PyVal where
  | vnone
  | vbool (b : Bool)
  | vint (n : Int)
  | vfloat (q : ℚ)
  | vstr (s : String)
  | vlist (l : List PyVal)
  | vdict (l : List (String × PyVal))

namespace PyVal

/-- First binding of a key in a dict body (Python dicts have unique keys;
first match is the lookup). -/
def dictLookup : List (String × PyVal) → String → Option PyVal
  | [], _ => none
  | (k, v) :: rest, key => if k = key then some v else dictLookup rest key

/-- Python truthiness: `None`, `False`, `0`, `0.0`, `""`, `[]`, `{}` are
falsy, everything else truthy. -/
def pyTruthy : PyVal → Bool
  | .vnone => false
  | .vbool b => b
  | .vint n => n != 0
  | .vfloat q => q != 0
  | .vstr s => s != ""
  | .vlist l => !l.isEmpty
  | .vdict l => !l.isEmpty

/-- Python `v.get(key, default)`: dict lookup with a default.  Called on anything
that is not a dict it raises `AttributeError`, exactly as in Python
(`'list' object has no attribute 'get'`). -/
def pyGet : PyVal → String → PyVal → Except PyErr PyVal
  | .vdict l, key, dflt => .ok ((dictLookup l key).getD dflt)
  | _, _, _ => .error .attributeError

/-- Python `v[0]`: first element of a list; `IndexError` on an empty list,
`KeyError` on a dict without an integer key (the embedded dicts have
string keys only), `TypeError` on scalars. -/
def pyIndex0 : PyVal → Except PyErr PyVal
  | .vlist (x :: _) => .ok x
  | .vlist [] => .error .indexError
  | .vdict _ => .error .keyError
  | .vstr s => if s = "" then .error .indexError else .ok (.vstr (String.singleton (s.get 0)))
  | _ => .error .typeError

/-- Python `x or y`: `x` when truthy, else `y`. -/
def pyOr (x y : PyVal) : PyVal := if pyTruthy x then x else y

/-- Python `str(v)` restricted to the scalar shapes the embedded code compares
against string literals; container values get a bracketed placeholder
(the embedded code only ever compares the result against `"10001"`, which
no container repr can equal). -/
def pyStr : PyVal → String
  | .vnone => "None"
  | .vbool true => "True"
  | .vbool false => "False"
  | .vint n => toString n
  | .vfloat q => if q.den = 1 then toString q.num ++ ".0" else toString q
  | .vstr s => s
  | .vlist _ => "[...]"
  | .vdict _ => "<dict>"

/-- Python `==` for the comparisons the embedded code performs: numeric
types compare by value across int/float/bool, strings compare as strings,
`None == None`; distinct shapes otherwise compare unequal, and containers
compare structurally. -/
def numVal : PyVal → Option ℚ
  | .vbool b => some (if b then 1 else 0)
  | .vint n => some (n : ℚ)
  | .vfloat q => some q
  | _ => none

mutual

/-- See `numVal`: Python `==` as used by the embedded code. -/
def pyEq : PyVal → PyVal → Bool
  | .vstr s, .vstr t => s == t
  | .vnone, .vnone => true
  | .vlist la, .vlist lb => pyEqList la lb
  | .vdict da, .vdict db => pyEqDict da db
  | a, b =>
    match numVal a, numVal b with
    | some x, some y => x == y
    | _, _ => false

/-- Elementwise Python `==` on lists. -/
def pyEqList : List PyVal → List PyVal → Bool
  | [], [] => true
  | x :: xs, y :: ys => pyEq x y && pyEqList xs ys
  | _, _ => false

/-- Pairwise Python `==` on dict bodies. -/
def pyEqDict : List (String × PyVal) → List (String × PyVal) → Bool
  | [], [] => true
  | (k1, v1) :: xs, (k2, v2) :: ys => k1 == k2 && pyEq v1 v2 && pyEqDict xs ys
  | _, _ => false

end

/-- Parse the decimal-string forms accepted by the payloads
(`"219.99"`, `"-3"`, `"14.99"`); other strings fail like Python
`float("...")` raising `ValueError`.  Scientific notation and the
special floats do not occur in the payloads and are not accepted. -/
def parseFloat? (s : String) : Option ℚ :=
  let t := s.trim
  let (neg, body) :=
    if t.startsWith "-" then (true, t.drop 1)
    else if t.startsWith "+" then (false, t.drop 1)
    else (false, t)
  let signify : ℚ → ℚ := fun q => if neg then -q else q
  match body.split (· = '.') with
  | [a] =>
    match a.toNat? with
    | some n => some (signify n)
    | none => none
  | [a, b] =>
    if a = "" ∧ b = "" then none
    else
      match (if a = "" then some 0 else a.toNat?), (if b = "" then some 0 else b.toNat?) with
      | some ip, some fp =>
        if a.all Char.isDigit ∧ b.all Char.isDigit then
          some (signify ((ip : ℚ) + (fp : ℚ) / ((10 : ℚ) ^ b.length)))
        else none
      | _, _ => none
  | _ => none

/-- Python `float(v)`: numbers convert, numeric strings parse,
anything else raises (`TypeError` for non-strings, `ValueError` for
unparseable strings). -/
def pyFloat : PyVal → Except PyErr PyVal
  | .vbool b => .ok (.vfloat (if b then 1 else 0))
  | .vint n => .ok (.vfloat (n : ℚ))
  | .vfloat q => .ok (.vfloat q)
  | .vstr s =>
    match parseFloat? s with
    | some q => .ok (.vfloat q)
    | none => .error .valueError
  | _ => .error .typeError

/-- Python `int(v)`: bools and ints convert, floats truncate toward zero,
integer-strings parse, anything else raises. -/
def pyInt : PyVal → Except PyErr Int
  | .vbool b => .ok (if b then 1 else 0)
  | .vint n => .ok n
  | .vfloat q => .ok (Int.tdiv q.num (q.den : Int))
  | .vstr s =>
    match s.trim.toInt? with
    | some n => .ok n
    | none => .error .valueError
  | _ => .error .typeError

end PyVal

open PyVal

/-- From `src/jobs/backfill_ebay.py`, `_first`:
```
def _first(v, default=None):
    if isinstance(v, list) and v:
        return v[0]
    return v if v is not None else default
```
A non-empty list yields its head; otherwise the value itself is returned
unless it is `None`, in which case the default is returned.  Note that an
empty list is not `None`, so the second line returns the empty list
itself, not the default. -/
def _first (v default : PyVal) : PyVal :=
  match v with
  | .vlist (x :: _) => x
  | .vnone => default
  | w => w

/-- From `src/jobs/backfill_ebay.py`, `normalize_item`, embedded operation by
operation in Python's evaluation order (the two statements, then the dict
literal's values left to right).  Each `.get` is `pyGet` and raises
`AttributeError` when its receiver is not a dict — in particular when a
`.get(..., [{}])` default (a list) is immediately `.get`-ed again. -/
def normalize_item (item : PyVal) : Except PyErr PyVal := do
  let selling ← pyGet item "sellingStatus" (.vdict [])
  let cp1 ← pyGet selling "currentPrice" (.vlist [.vdict []])
  let cpv ← pyGet cp1 "__value__" .vnone
  let current_price := _first cpv .vnone
  let listingIdRaw ← pyGet item "itemId" .vnone
  let titleRaw ← pyGet item "title" .vnone
  let pc ← pyGet item "primaryCategory" (.vlist [.vdict []])
  let categoryRaw ← pyGet pc "categoryName" .vnone
  let priceVal ←
    if pyTruthy current_price then pyFloat current_price
    else pure PyVal.vnone
  let cp2 ← pyGet selling "currentPrice" (.vlist [.vdict []])
  let currencyRaw ← pyGet cp2 "@currencyId" .vnone
  let si1 ← pyGet item "sellerInfo" (.vlist [.vdict []])
  let sellerRaw ← pyGet si1 "sellerUserName" .vnone
  let si2 ← pyGet item "sellerInfo" (.vlist [.vdict []])
  let fbRaw ← pyGet si2 "feedbackScore" .vnone
  let fb ← pyInt (pyOr (_first fbRaw (.vint 0)) (.vint 0))
  let cond1 ← pyGet item "condition" (.vlist [.vdict []])
  let condRaw ← pyGet cond1 "conditionDisplayName" .vnone
  let imageRaw ← pyGet item "galleryURL" .vnone
  let li1 ← pyGet item "listingInfo" (.vlist [.vdict []])
  let startRaw ← pyGet li1 "startTime" .vnone
  let li2 ← pyGet item "listingInfo" (.vlist [.vdict []])
  let endRaw ← pyGet li2 "endTime" .vnone
  pure (.vdict [
    ("marketplace", .vstr "ebay"),
    ("status", .vstr "completed"),
    ("listing_id", _first listingIdRaw .vnone),
    ("title", _first titleRaw (.vstr "")),
    ("category", _first categoryRaw (.vstr "")),
    ("price", priceVal),
    ("currency", _first currencyRaw (.vstr "USD")),
    ("seller", _first sellerRaw (.vstr "")),
    ("seller_feedback", .vint fb),
    ("condition", _first condRaw (.vstr "")),
    ("image", _first imageRaw (.vstr "")),
    ("start_time", _first startRaw .vnone),
    ("end_time", _first endRaw .vnone),
    ("raw", item)])


/-!
## Fetch classification (`src/data_fetch.py`)
-/

/-- Loop body of `_rate_limited`: scan the extracted error entries.
Python evaluates the `and` lazily, so the `subdomain` accessors run only
when the `errorId` test has already succeeded. -/
def rateLimitedScan : List PyVal → Except PyErr Bool
  | [] => .ok false
  | e :: rest => do
    let eid ← pyGet e "errorId" .vnone
    let eid0 ← pyIndex0 (pyOr eid (.vlist [.vstr ""]))
    if pyStr eid0 = "10001" then
      let sd ← pyGet e "subdomain" .vnone
      let sd0 ← pyIndex0 (pyOr sd (.vlist [.vstr ""]))
      if pyEq sd0 (.vstr "RateLimiter") then pure true
      else rateLimitedScan rest
    else rateLimitedScan rest

/-- Python `for e in v`: iterate a list's elements, a dict's keys, a
string's characters; anything else raises `TypeError`. -/
def pyIter : PyVal → Except PyErr (List PyVal)
  | .vlist l => .ok l
  | .vdict l => .ok (l.map (fun p => .vstr p.1))
  | .vstr s => .ok (s.toList.map (fun c => .vstr (String.singleton c)))
  | _ => .error .typeError

/-- From `src/data_fetch.py`, `_rate_limited`:
```
em = payload.get("errorMessage")
if not em: return False
errs = (em[0].get("error", []) if isinstance(em, list) else em.get("error", [])) or []
for e in errs:
    if (str((e.get("errorId") or [""])[0]) == "10001"
        and (e.get("subdomain") or [""])[0] == "RateLimiter"):
        return True
return False
```
Note that only the TOP-LEVEL `"errorMessage"` key of the payload is
consulted. -/
def _rate_limited (payload : PyVal) : Except PyErr Bool := do
  let em ← pyGet payload "errorMessage" .vnone
  if pyTruthy em = false then pure false
  else do
    let errs0 ←
      match em with
      | .vlist _ => do
        let h ← pyIndex0 em
        pyGet h "error" (.vlist [])
      | _ => pyGet em "error" (.vlist [])
    let errs := pyOr errs0 (.vlist [])
    let es ← pyIter errs
    rateLimitedScan es

/-- Outcome of classifying one HTTP-200 response inside `_fetch`
(`src/data_fetch.py`): success, unexpected shape, or the rate-limit
branch that retries with backoff. -/
inductive FetchClass where
  | okSuccess
  | unexpectedShape
  | rateLimitedRetry
deriving DecidableEq, Repr

/-- From `src/data_fetch.py`, `_fetch`, the classification applied to a
status-200 response with parsed body `data`:
```
if r.status_code == 200 and not _rate_limited(data):
    root = data.get(operation + "Response")
    if isinstance(root, list): root = root[0]
    if root: return True, data, "ok"
    return False, data, "unexpected-shape"
if r.status_code >= 500 or _rate_limited(data): ...retry/backoff...
```
For status 200 the second test reduces to `_rate_limited(data)`. -/
def fetch_classify_200 (operation : String) (data : PyVal) : Except PyErr FetchClass := do
  let rl ← _rate_limited data
  if rl then pure .rateLimitedRetry
  else do
    let root0 ← pyGet data (operation ++ "Response") .vnone
    let root ←
      match root0 with
      | .vlist _ => pyIndex0 root0
      | _ => pure root0
    if pyTruthy root then pure .okSuccess else pure .unexpectedShape

/-- A rate-limit marker placed NESTED inside the per-operation response
object, as the upstream emits it on a throttled call that still returns
HTTP 200. -/
def nestedRateLimitPayload : PyVal :=
  .vdict [("findCompletedItemsResponse", .vlist [.vdict [
    ("ack", .vlist [.vstr "Failure"]),
    ("errorMessage", .vlist [.vdict [("error", .vlist [.vdict [
      ("errorId", .vlist [.vstr "10001"]),
      ("subdomain", .vlist [.vstr "RateLimiter"])]])]])]])]


/-!
## Document store and `save_listings` (`src/jobs/backfill_ebay.py`)

Normalized rows written by the backfill always carry the full field set
(see `normalize_item`: every key is present in the emitted dict), so a
Firestore `set(..., merge=True)` with such a row replaces the stored
document's fields wholesale; we model a stored document as the row itself
and the merge as replacement.  The control flow of `save_listings` only
inspects `marketplace`, `status` and `listing_id`, which is what `NRow`
records.
-/

/-- A normalized listing row as far as the write path inspects it.
`listing_id` is `none` when the normalizer produced `None`; the empty
string models a present-but-empty id (both are falsy in Python). -/
structure NRow where
  marketplace : String
  status : String
  listing_id : Option String
deriving DecidableEq, Repr

/-- The `listings` collection: documents keyed by doc id. -/
abbrev Store := List (String × NRow)

/-- Doc ids currently present in the collection. -/
def storeKeys (st : Store) : List String := st.map Prod.fst

/-- The truthiness test `if not item_id: continue`: the row is written
only when its `listing_id` is present and non-empty. -/
def truthyId (r : NRow) : Option String :=
  match r.listing_id with
  | some s => if s = "" then none else some s
  | none => none

/-- The key `doc_id = f'{r["marketplace"]}_{r["status"]}_{item_id}'`. -/
def docId (m s i : String) : String := m ++ "_" ++ s ++ "_" ++ i

/-- The write `batch.set(col_ref.document(doc_id), r, merge=True)`: upsert keyed by
`doc_id`.  An existing document is overwritten in place (the write carries
every field, so the merge replaces all of them); a new key is appended. -/
def setMerge (st : Store) (k : String) (v : NRow) : Store :=
  if k ∈ storeKeys st then
    st.map (fun p => if p.1 = k then (k, v) else p)
  else st ++ [(k, v)]

/-- The `for r in rows` loop of `save_listings`, threading the batch
(modelled as the store updated so far) and the running count. -/
def saveLoop : Store × Nat → List NRow → Store × Nat
  | acc, [] => acc
  | (st, c), r :: rest =>
    match truthyId r with
    | none => saveLoop (st, c) rest
    | some i => saveLoop (setMerge st (docId r.marketplace r.status i) r, c + 1) rest

/-- From `src/jobs/backfill_ebay.py`, `save_listings`:
```
if not rows:
    return 0
batch = db.batch(); col_ref = db.collection("listings"); count = 0
for r in rows:
    item_id = r.get("listing_id")
    if not item_id: continue
    doc_id = f'{r["marketplace"]}_{r["status"]}_{item_id}'
    batch.set(col_ref.document(doc_id), r, merge=True)
    count += 1
batch.commit()
return count
```
Returns the updated collection and the count of rows added to the batch. -/
def save_listings (st : Store) (rows : List NRow) : Store × Nat :=
  if rows = [] then (st, 0) else saveLoop (st, 0) rows

/-!
## Ingestion driver (`src/jobs/backfill_ebay.py`, `main`)

The upstream is abstracted as an oracle mapping (query, page,
entries_per_page) to the outcome of `find_completed_items` as the driver's
`try` block observes it: normalized rows on success, a `RateLimited`
exception, or any other exception (HTTP failure after retries, JSON
failure after retries, or an error while normalizing; all reach the same
`except Exception` branch).  Sleeps and log output are irrelevant to the
claims and are dropped; `random.shuffle(QUERIES)` only permutes the query
order, so the driver is stated for an arbitrary (post-shuffle) query
list. -/

/-- Outcome of one driver-level fetch, as seen by `main`'s `try` block. -/
inductive FetchOutcome where
  | ok (rows : List NRow)
  | rateLimited
  | fetchError
deriving DecidableEq, Repr

/-- The upstream, as a function of query, page number and entries_per_page. -/
abbrev Oracle := String → Nat → Nat → FetchOutcome

/-- One upstream call as recorded in the run trace. -/
structure CallRec where
  query : String
  page : Nat
  entries : Nat
  outcome : FetchOutcome
deriving DecidableEq, Repr

/-- Run state threaded through `main`: `requests_used`, `total_saved`,
the document store, and the trace of upstream calls actually issued. -/
structure RunState where
  requestsUsed : Nat
  totalSaved : Nat
  store : Store
  trace : List CallRec
deriving Repr

/-- The `for page in range(1, MAX_PAGES + 1)` loop of `main` for one
query.  `fuel` is the number of page iterations remaining, `page` the
current page number, `entries` the current entries_per_page,
`consec` the `consecutive_errors` counter.  Returns the new state and
`true` when the run continues with the next query (`false` exactly when
the request budget was hit, which `return`s out of the whole run). -/
def runPages (o : Oracle) (budget : Nat) (q : String) :
    Nat → Nat → Nat → Nat → RunState → RunState × Bool
  | 0, _, _, _, st => (st, true)
  | fuel + 1, page, entries, consec, st =>
    if budget ≤ st.requestsUsed then (st, false)
    else
      match o q page entries with
      | .ok rows =>
        let st1 : RunState :=
          { st with
            requestsUsed := st.requestsUsed + 1,
            trace := st.trace ++ [⟨q, page, entries, .ok rows⟩] }
        if rows = [] then (st1, true)
        else
          let sv := save_listings st1.store rows
          runPages o budget q fuel (page + 1) entries 0
            { st1 with store := sv.1, totalSaved := st1.totalSaved + sv.2 }
      | .rateLimited =>
        ({ st with trace := st.trace ++ [⟨q, page, entries, .rateLimited⟩] }, true)
      | .fetchError =>
        let st1 : RunState :=
          { st with trace := st.trace ++ [⟨q, page, entries, .fetchError⟩] }
        let c := consec + 1
        if c = 2 ∧ 50 < entries then runPages o budget q fuel (page + 1) 50 c st1
        else if 3 ≤ c then (st1, true)
        else runPages o budget q fuel (page + 1) entries c st1

/-- The `for q in QUERIES` loop: per query the error counter and
entries_per_page reset, and a `false` continue-flag from the page loop
(`return` on budget exhaustion) ends the whole run. -/
def runQueries (o : Oracle) (budget maxPages entries0 : Nat) :
    List String → RunState → RunState
  | [], st => st
  | q :: qs, st =>
    let r := runPages o budget q maxPages 1 entries0 0 st
    if r.2 then runQueries o budget maxPages entries0 qs r.1 else r.1

/-- From `src/jobs/backfill_ebay.py`, `main`, over a (post-shuffle) query list,
page cap, initial entries_per_page, request budget and initial store. -/
def mainRun (o : Oracle) (queries : List String)
    (maxPages entries0 budget : Nat) (st0 : Store) : RunState :=
  runQueries o budget maxPages entries0 queries ⟨0, 0, st0, []⟩


/-!
## Model input preparation (`src/ml/predictor.py`, `prepare_df`)

Rows arrive from the document store as dicts.  `prepare_df` turns them
into a DataFrame, so a column exists exactly when at least one row's dict
carries the key, and a row missing the key (or holding a null /
unparseable value) shows `NaN`/`NaT` in that column.  `PRow` models one
row: the outer `Option` of the time fields is key presence, the inner
`Option` is whether pandas could parse the value (timestamps are carried
as parsed epoch seconds; ISO-8601 parsing itself is pandas').  The other
three columns are always populated by the ingestion path.
-/

/-- One stored row as `prepare_df` sees it. -/
structure PRow where
  status : String
  price : Option ℚ
  title : String
  end_time : Option (Option Int)
  start_time : Option (Option Int)
deriving DecidableEq, Repr

/-- One output row of `prepare_df`: the `["dt", "ts", "price", "title"]`
projection, with `dt` and the derived `ts` both in epoch seconds. -/
structure OutRow where
  dt : Int
  ts : Int
  price : ℚ
  title : String
deriving DecidableEq, Repr

/-- Chronological comparison used by `df.sort_values("dt")`. -/
def dtLe (a b : OutRow) : Prop := a.dt ≤ b.dt

instance : DecidableRel dtLe := fun a b => inferInstanceAs (Decidable (a.dt ≤ b.dt))

instance : IsTotal OutRow dtLe := ⟨fun a b => Int.le_total a.dt b.dt⟩

instance : IsTrans OutRow dtLe := ⟨fun _ _ _ h1 h2 => le_trans h1 h2⟩

/-- Case-insensitive-ready substring test backing
`df["title"].str.contains(q, na=False)` (the queries contain no regex
metacharacters, so `contains` is plain substring search). -/
def strContains (s sub : String) : Bool := decide (sub.toList <:+: s.toList)

/-- Python `str.lower()` over the characters (the data is ASCII). -/
def strLower (s : String) : String := String.mk (s.data.map Char.toLower)

/-- Python `str.strip()`: drop leading and trailing whitespace. -/
def strStrip (s : String) : String :=
  String.mk (((s.data.dropWhile Char.isWhitespace).reverse.dropWhile Char.isWhitespace).reverse)

/-- The cell of the selected time column for one row: `NaT` (`none`) when
the key is absent or the value did not parse. -/
def pcell (useEnd : Bool) (r : PRow) : Option Int :=
  (if useEnd then r.end_time else r.start_time).join

/-- From `src/ml/predictor.py`, `prepare_df`:
```
df = pd.DataFrame(rows) if rows else pd.DataFrame()
if df.empty: return df
tcol = "end_time" if ("end_time" in df.columns) else ("start_time" if "start_time" in df.columns else None)
if tcol is None: return pd.DataFrame()
df = df[df["status"] == "completed"]
df = df[df["price"].notna()]
df = df[df["price"].astype(float) > 0]
q = query_substr.strip().lower()
if q: df = df[df["title"].str.lower().str.contains(q, na=False)]
dt = pd.to_datetime(df[tcol], errors="coerce", utc=True)
df = df.assign(dt=dt).dropna(subset=["dt"])
cutoff = pd.Timestamp.utcnow() - pd.Timedelta(days=lookback_days)
df = df[df["dt"] >= cutoff]
df["ts"] = df["dt"].astype("int64") // 10**9
df = df.sort_values("dt")
return df[["dt", "ts", "price", "title"]]
```
`now` is `pd.Timestamp.utcnow()` in epoch seconds.  The time column is
chosen once for the whole table (the dead `np.where` assignment on the
line above it is immediately overwritten and has no effect). -/
def prepare_df (now : Int) (rows : List PRow) (query_substr : String)
    (lookback_days : Int) : List OutRow :=
  if rows.isEmpty then []
  else
    let hasEndCol := rows.any (fun r => r.end_time.isSome)
    let hasStartCol := rows.any (fun r => r.start_time.isSome)
    if !hasEndCol && !hasStartCol then []
    else
      let useEnd := hasEndCol
      let df1 := rows.filter (fun r => r.status == "completed")
      let df2 := df1.filter (fun r => r.price.isSome)
      let df3 := df2.filter (fun r => match r.price with
        | some p => decide (0 < p)
        | none => false)
      let q := strLower (strStrip query_substr)
      let df4 := if q = "" then df3 else df3.filter (fun r => strContains (strLower r.title) q)
      let withDt := df4.filterMap (fun r => (pcell useEnd r).map (fun t => (r, t)))
      let cutoff := now - lookback_days * 86400
      let df5 := withDt.filter (fun rt => decide (cutoff ≤ rt.2))
      let out := df5.map (fun rt =>
        (⟨rt.2, rt.2, rt.1.price.getD 0, rt.1.title⟩ : OutRow))
      out.insertionSort dtLe

/-- Follows the words of claim C6 (not the code): keep a row iff it has
status `completed`, a present price strictly greater than 0, a title
containing the keyword substring case-insensitively, and a timestamp —
preferring `end_time` and falling back to `start_time` when `end_time` is
absent — within `lookback_days` of the current time. -/
def specKeepRow (now : Int) (lookback_days : Int) (query_substr : String) (r : PRow) : Bool :=
  let ts? := match r.end_time.join with
    | some t => some t
    | none => r.start_time.join
  r.status == "completed" &&
  (match r.price with | some p => decide (0 < p) | none => false) &&
  strContains (strLower r.title) (strLower (strStrip query_substr)) &&
  (match ts? with
    | some t => decide (now - lookback_days * 86400 ≤ t)
    | none => false)

/-!
## Trend model fitting (`src/ml/predictor.py`, `train_time_trend`)
-/

/-- The fitted line. -/
structure FitParams where
  slope : ℚ
  intercept : ℚ
deriving DecidableEq, Repr

/-- The map `np.linalg.pinv` on the symmetric positive-semidefinite 2×2 matrix
`[[a, b], [b, c]]` (the normal matrix `XᵀX`), returned as the entries
`(a⁺, b⁺, c⁺)` of the symmetric pseudo-inverse: the true inverse when the
determinant is nonzero; for a rank-one symmetric PSD matrix
`A = λ·vvᵀ` the Moore–Penrose inverse is `A / tr(A)²`; for the zero
matrix it is zero. -/
def pinv2 (a b c : ℚ) : ℚ × ℚ × ℚ :=
  let det := a * c - b * b
  if det ≠ 0 then (c / det, -b / det, a / det)
  else
    let tr := a + c
    if tr ≠ 0 then (a / (tr * tr), b / (tr * tr), c / (tr * tr))
    else (0, 0, 0)

/-- From `src/ml/predictor.py`, `train_time_trend`:
```
if len(df) < 12:
    raise ValueError("Need at least 12 sold datapoints to train a meaningful trend.")
n = len(df); split = max(int(n * 0.8), 1)
train = df.iloc[:split]; test = df.iloc[split:]
X = [[ts, 1] ...]; theta = pinv(X.T @ X) @ (X.T @ y)
mae = mean(|pred - test.price|) if len(test) else nan
return {"slope": slope, "intercept": intercept}, mae
```
The input is the prepared `(ts, price)` table in chronological order; the
raised `ValueError` is the `Except.error`; the `nan` MAE of an empty
holdout is `none`. -/
def train_time_trend (df : List (Int × ℚ)) : Except String (FitParams × Option ℚ) :=
  if df.length < 12 then
    .error "Need at least 12 sold datapoints to train a meaningful trend."
  else
    let n := df.length
    let split := max (n * 8 / 10) 1
    let train := df.take split
    let test := df.drop split
    let sx := (train.map (fun p => ((p.1 : ℚ)))).sum
    let sxx := (train.map (fun p => (p.1 : ℚ) * (p.1 : ℚ))).sum
    let sy := (train.map Prod.snd).sum
    let sxy := (train.map (fun p => (p.1 : ℚ) * p.2)).sum
    let k := (train.length : ℚ)
    let pi := pinv2 sxx sx k
    let slope := pi.1 * sxy + pi.2.1 * sy
    let intercept := pi.2.1 * sxy + pi.2.2 * sy
    let mae :=
      if test.length = 0 then none
      else some (((test.map (fun p => |slope * (p.1 : ℚ) + intercept - p.2|)).sum) / (test.length : ℚ))
    .ok (⟨slope, intercept⟩, mae)

/-!
## Trend aggregation (`src/dashboard.py`, tab 1 chart)

```
daily = df.dropna(subset=["date"]).groupby("date").median(numeric_only=True)[price_col]
            .reset_index(name="median_price")
...plot daily...
if len(daily) >= 3:
    ema = daily["median_price"].ewm(span=3, adjust=False).mean()
    ...plot ema...
```
The input is the already-dated `(date, price)` rows (dates as day
numbers); `groupby` sorts its keys ascending, pandas' median of an
even-sized group is the mean of the two middle values, and
`ewm(span=3, adjust=False)` is the recurrence `y0 = x0`,
`y[i] = α·x[i] + (1-α)·y[i-1]` with `α = 2/(3+1) = 1/2`.
-/

/-- pandas median: middle element of the sorted values, or the mean of
the two middle elements for an even count (0 for an empty group, which
`groupby` never produces). -/
def medianQ (l : List ℚ) : ℚ :=
  let s := l.insertionSort (· ≤ ·)
  if l.length = 0 then 0
  else if l.length % 2 = 1 then s.getD (l.length / 2) 0
  else (s.getD (l.length / 2 - 1) 0 + s.getD (l.length / 2) 0) / 2

/-- The distinct dates of the rows, ascending (`groupby`'s sorted keys). -/
def datesOf (rows : List (Int × ℚ)) : List Int :=
  ((rows.map Prod.fst).dedup).insertionSort (· ≤ ·)

/-- The prices recorded on date `d`. -/
def pricesAt (rows : List (Int × ℚ)) (d : Int) : List ℚ :=
  rows.filterMap (fun p => if p.1 = d then some p.2 else none)

/-- The aggregation `groupby("date").median(...)`: one `(date, median price)` point per
distinct date, ascending by date. -/
def dailyMedian (rows : List (Int × ℚ)) : List (Int × ℚ) :=
  (datesOf rows).map (fun d => (d, medianQ (pricesAt rows d)))

/-- Tail recurrence of `ewm(span=3, adjust=False).mean()` with α = 1/2. -/
def ema3 : ℚ → List ℚ → List ℚ
  | _, [] => []
  | prev, x :: xs =>
    let e := x / 2 + prev / 2
    e :: ema3 e xs

/-- The EMA series seeded at the first value. -/
def emaSeries : List ℚ → List ℚ
  | [] => []
  | x :: xs => x :: ema3 x xs

/-- The tab-1 trend chart data: the daily median series, plus the EMA-3
series exactly when the median series has at least 3 points. -/
def trend_chart (rows : List (Int × ℚ)) : List (Int × ℚ) × Option (List ℚ) :=
  let daily := dailyMedian rows
  (daily, if 3 ≤ daily.length then some (emaSeries (daily.map Prod.snd)) else none)

/-!
## Claim theorems
-/

/-- C7 counterexample: the claim says an empty collection yields the
caller-supplied default, but `_first([])` returns the empty list itself
(`[]` is not `None`, so the `v if v is not None else default` line
returns `v`). -/
theorem first_empty_list_returns_itself :
    _first (.vlist []) (.vint 7) = .vlist [] ∧ _first (.vlist []) (.vint 7) ≠ .vint 7 :=
  ⟨rfl, fun h => PyVal.noConfusion h⟩

/-- C7 (amended): `_first` returns the head of a non-empty list; it
returns the default only when the value is `None`; every other value —
in particular an empty list, and scalars — is returned unchanged. -/
theorem first_unwrap_or_passthrough :
    (∀ (x : PyVal) (xs : List PyVal) (d : PyVal), _first (.vlist (x :: xs)) d = x) ∧
    (∀ d : PyVal, _first .vnone d = d) ∧
    (∀ v d : PyVal, (∀ x xs, v ≠ .vlist (x :: xs)) → v ≠ .vnone → _first v d = v) := by
  refine ⟨fun x xs d => rfl, fun d => rfl, fun v d h1 h2 => ?_⟩
  cases v with
  | vnone => exact absurd rfl h2
  | vlist l =>
    cases l with
    | nil => rfl
    | cons x xs => exact absurd rfl (h1 x xs)
  | vbool b => rfl
  | vint n => rfl
  | vfloat q => rfl
  | vstr s => rfl
  | vdict l => rfl

/-- C7 witness: the amended theorem at concrete inputs. -/
theorem first_unwrap_or_passthrough_witness :
    _first (.vlist [.vint 1, .vint 2]) .vnone = .vint 1 ∧
    _first .vnone (.vint 7) = .vint 7 ∧
    _first (.vstr "a") (.vint 7) = .vstr "a" :=
  ⟨first_unwrap_or_passthrough.1 (.vint 1) [.vint 2] .vnone,
   first_unwrap_or_passthrough.2.1 (.vint 7),
   first_unwrap_or_passthrough.2.2 (.vstr "a") (.vint 7)
     (fun _ _ h => PyVal.noConfusion h) (fun h => PyVal.noConfusion h)⟩

/-- C2: `normalize_item` is not total.  On the empty raw item (every
field absent) the accessor chain
`selling.get("currentPrice", [{}]).get("__value__")` takes the list
default `[{}]` and calls `.get` on it, raising `AttributeError` —
instead of producing a complete record with an absent price as the
claim (and the spec) require. -/
theorem normalize_item_raises_on_empty_item :
    normalize_item (.vdict []) = .error .attributeError := rfl

/-- C8: `train_time_trend` on fewer than 12 rows reports the
insufficient-data error and performs no fitting; with at least 12 rows
fitting proceeds and returns parameters. -/
theorem train_time_trend_precondition :
    ∀ df : List (Int × ℚ),
      (df.length < 12 →
        train_time_trend df =
          .error "Need at least 12 sold datapoints to train a meaningful trend.") ∧
      (12 ≤ df.length → ∃ out, train_time_trend df = .ok out) := by
  intro df
  constructor
  · intro h
    unfold train_time_trend
    rw [if_pos h]
  · intro h
    unfold train_time_trend
    rw [if_neg (Nat.not_lt.mpr h)]
    exact ⟨_, rfl⟩

/-- C8 witness: the precondition theorem at a 3-row and a 12-row table. -/
theorem train_time_trend_precondition_witness :
    train_time_trend [(0, 1), (1, 2), (2, 3)] =
      .error "Need at least 12 sold datapoints to train a meaningful trend." ∧
    ∃ out, train_time_trend
      [(0, 1), (1, 1), (2, 1), (3, 1), (4, 1), (5, 1),
       (6, 1), (7, 1), (8, 1), (9, 1), (10, 1), (11, 1)] = .ok out :=
  ⟨(train_time_trend_precondition _).1 (by decide),
   (train_time_trend_precondition _).2 (by decide)⟩

/-- C4 counterexample: a response body carrying error code 10001 paired
with subdomain RateLimiter NESTED inside the per-operation response
object.  `_rate_limited` only consults the top-level `errorMessage` key
and returns `False`, and the status-200 classification of `_fetch` then
reports plain success — not rate-limited. -/
theorem rate_limited_misses_nested_marker :
    _rate_limited nestedRateLimitPayload = .ok false ∧
    fetch_classify_200 "findCompletedItems" nestedRateLimitPayload = .ok .okSuccess :=
  ⟨rfl, rfl⟩

/-- C4 (amended): `_rate_limited` detects the 10001/RateLimiter marker
when it sits in the TOP-LEVEL `errorMessage` of the payload (here with
the marker entry heading the error list), and never fires on a payload
without a top-level `errorMessage` key — so the nested per-operation
placement, which the backfill job's `call_finding` handles separately,
is invisible to this classifier. -/
theorem rate_limited_top_level_only :
    (∀ (fields : List (String × PyVal)) (emTail : List PyVal)
       (em0fields : List (String × PyVal)) (errsTail : List PyVal)
       (efields : List (String × PyVal)) (idTail sdTail : List PyVal),
      dictLookup fields "errorMessage" = some (.vlist (.vdict em0fields :: emTail)) →
      dictLookup em0fields "error" = some (.vlist (.vdict efields :: errsTail)) →
      dictLookup efields "errorId" = some (.vlist (.vstr "10001" :: idTail)) →
      dictLookup efields "subdomain" = some (.vlist (.vstr "RateLimiter" :: sdTail)) →
      _rate_limited (.vdict fields) = .ok true) ∧
    (∀ fields : List (String × PyVal),
      dictLookup fields "errorMessage" = none →
      _rate_limited (.vdict fields) = .ok false) := by
  constructor
  · intro fields emTail em0fields errsTail efields idTail sdTail h1 h2 h3 h4
    simp [_rate_limited, Bind.bind, Except.bind, pure, Except.pure,
      pyGet, h1, pyTruthy, pyIndex0, pyOr, pyIter,
      rateLimitedScan, h2, h3, h4, pyStr, pyEq]
  · intro fields h
    simp [_rate_limited, Bind.bind, Except.bind, pure, Except.pure, pyGet, h, pyTruthy]

/-- C4 witness: the amended theorem applied to a concrete top-level
rate-limit payload and to a payload with no top-level `errorMessage`. -/
theorem rate_limited_top_level_only_witness :
    _rate_limited (.vdict [("errorMessage", .vlist [.vdict [("error", .vlist [.vdict [
        ("errorId", .vlist [.vstr "10001"]),
        ("subdomain", .vlist [.vstr "RateLimiter"])]])]])]) = .ok true ∧
    _rate_limited (.vdict [("ack", .vstr "Success")]) = .ok false :=
  ⟨rate_limited_top_level_only.1 _ [] _ [] _ [] [] rfl rfl rfl rfl,
   rate_limited_top_level_only.2 _ rfl⟩

/-- The doc ids of the rows `save_listings` actually writes: those with a
present, non-empty `listing_id`. -/
def keptIds (rows : List NRow) : List String :=
  rows.filterMap (fun r => (truthyId r).map (docId r.marketplace r.status))

/-- Writing under an id leaves the key list unchanged when the id is
already present, and appends it otherwise. -/
theorem storeKeys_setMerge (st : Store) (k : String) (v : NRow) :
    storeKeys (setMerge st k v) =
      if k ∈ storeKeys st then storeKeys st else storeKeys st ++ [k] := by
  unfold setMerge
  by_cases h : k ∈ storeKeys st
  · rw [if_pos h, if_pos h]
    unfold storeKeys
    rw [List.map_map]
    apply List.map_congr_left
    intro p _
    by_cases hp : p.1 = k
    · simp [hp]
    · simp [hp]
  · rw [if_neg h, if_neg h]
    simp [storeKeys]

/-- Membership version of `storeKeys_setMerge`. -/
theorem mem_storeKeys_setMerge (st : Store) (k key : String) (v : NRow) :
    key ∈ storeKeys (setMerge st k v) ↔ key ∈ storeKeys st ∨ key = k := by
  rw [storeKeys_setMerge]
  by_cases h : k ∈ storeKeys st
  · rw [if_pos h]
    constructor
    · exact Or.inl
    · rintro (hk | rfl)
      · exact hk
      · exact h
  · rw [if_neg h]
    simp

/-- The keys after the write loop are the old keys plus the kept ids. -/
theorem mem_storeKeys_saveLoop :
    ∀ (rows : List NRow) (st : Store) (c : Nat) (key : String),
      key ∈ storeKeys (saveLoop (st, c) rows).1 ↔
        key ∈ storeKeys st ∨ key ∈ keptIds rows := by
  intro rows
  induction rows with
  | nil => intro st c key; simp [saveLoop, keptIds]
  | cons r rest ih =>
    intro st c key
    cases h : truthyId r with
    | none =>
      rw [show saveLoop (st, c) (r :: rest) = saveLoop (st, c) rest from by
        simp [saveLoop, h]]
      rw [ih]
      simp [keptIds, h]
    | some i =>
      rw [show saveLoop (st, c) (r :: rest) =
          saveLoop (setMerge st (docId r.marketplace r.status i) r, c + 1) rest from by
        simp [saveLoop, h]]
      rw [ih, mem_storeKeys_setMerge]
      simp [keptIds, List.filterMap_cons, h]
      tauto

/-- The loop's count is the number of rows with a truthy `listing_id`. -/
theorem saveLoop_count :
    ∀ (rows : List NRow) (st : Store) (c : Nat),
      (saveLoop (st, c) rows).2 =
        c + (rows.filter (fun r => (truthyId r).isSome)).length := by
  intro rows
  induction rows with
  | nil => intro st c; simp [saveLoop]
  | cons r rest ih =>
    intro st c
    cases h : truthyId r with
    | none =>
      rw [show saveLoop (st, c) (r :: rest) = saveLoop (st, c) rest from by
        simp [saveLoop, h]]
      rw [ih]
      simp [List.filter_cons, h]
    | some i =>
      rw [show saveLoop (st, c) (r :: rest) =
          saveLoop (setMerge st (docId r.marketplace r.status i) r, c + 1) rest from by
        simp [saveLoop, h]]
      rw [ih]
      simp [List.filter_cons, h]
      omega

/-- When every kept id is already a key, the loop changes no keys. -/
theorem storeKeys_saveLoop_of_subset :
    ∀ (rows : List NRow) (st : Store) (c : Nat),
      (∀ k ∈ keptIds rows, k ∈ storeKeys st) →
      storeKeys (saveLoop (st, c) rows).1 = storeKeys st := by
  intro rows
  induction rows with
  | nil => intro st c _; simp [saveLoop]
  | cons r rest ih =>
    intro st c hsub
    cases h : truthyId r with
    | none =>
      rw [show saveLoop (st, c) (r :: rest) = saveLoop (st, c) rest from by
        simp [saveLoop, h]]
      apply ih
      intro k hk
      apply hsub
      simp [keptIds, h] at hk ⊢
      exact hk
    | some i =>
      rw [show saveLoop (st, c) (r :: rest) =
          saveLoop (setMerge st (docId r.marketplace r.status i) r, c + 1) rest from by
        simp [saveLoop, h]]
      have hkmem : docId r.marketplace r.status i ∈ storeKeys st := by
        apply hsub
        simp [keptIds, h]
      have hkeys : storeKeys (setMerge st (docId r.marketplace r.status i) r) = storeKeys st := by
        rw [storeKeys_setMerge, if_pos hkmem]
      rw [ih _ _ ?_, hkeys]
      intro k hk
      rw [hkeys]
      apply hsub
      simp [keptIds, h]
      right
      simp [keptIds] at hk
      exact hk

/-- C1: each row with a truthy listing id is written under its
deterministic doc id `marketplace_status_listing_id`, and a second run of
`save_listings` with the same rows leaves the key list of the store
unchanged — same document-id set, stable document-id count. -/
theorem save_listings_idempotent_keys :
    ∀ (st : Store) (rows : List NRow),
      (∀ r ∈ rows, ∀ i, truthyId r = some i →
        docId r.marketplace r.status i ∈ storeKeys (save_listings st rows).1) ∧
      storeKeys (save_listings (save_listings st rows).1 rows).1 =
        storeKeys (save_listings st rows).1 := by
  intro st rows
  by_cases hrows : rows = []
  · subst hrows
    constructor
    · intro r hr; exact absurd hr (List.not_mem_nil r)
    · rfl
  · constructor
    · intro r hr i hi
      rw [show save_listings st rows = saveLoop (st, 0) rows from by
        simp [save_listings, hrows]]
      rw [mem_storeKeys_saveLoop]
      right
      simp only [keptIds, List.mem_filterMap]
      exact ⟨r, hr, by simp [hi]⟩
    · rw [show save_listings (save_listings st rows).1 rows =
          saveLoop ((save_listings st rows).1, 0) rows from by
        simp [save_listings, hrows]]
      apply storeKeys_saveLoop_of_subset
      intro k hk
      rw [show save_listings st rows = saveLoop (st, 0) rows from by
        simp [save_listings, hrows]]
      rw [mem_storeKeys_saveLoop]
      exact Or.inr hk

/-- C1 witness: the idempotence theorem at a concrete store and rows. -/
theorem save_listings_idempotent_keys_witness :
    docId "ebay" "completed" "42" ∈
      storeKeys (save_listings [] [⟨"ebay", "completed", some "42"⟩]).1 ∧
    storeKeys (save_listings
        (save_listings [] [⟨"ebay", "completed", some "42"⟩]).1
        [⟨"ebay", "completed", some "42"⟩]).1 =
      storeKeys (save_listings [] [⟨"ebay", "completed", some "42"⟩]).1 :=
  ⟨(save_listings_idempotent_keys [] _).1 _ (List.mem_singleton.mpr rfl) "42" rfl,
   (save_listings_idempotent_keys [] _).2⟩

/-- C10: `save_listings` writes exactly the rows whose `listing_id` is
present and non-empty, returns the count of rows added to the batch
(the length of that filtered sublist, possibly less than the input
length), returns 0 and performs no write on an empty input, and the
resulting key set is the old keys plus the kept doc ids. -/
theorem save_listings_skips_missing_ids :
    ∀ (st : Store) (rows : List NRow),
      (save_listings st rows).2 =
        (rows.filter (fun r => (truthyId r).isSome)).length ∧
      (rows = [] → save_listings st rows = (st, 0)) ∧
      (∀ key, key ∈ storeKeys (save_listings st rows).1 ↔
        key ∈ storeKeys st ∨ key ∈ keptIds rows) := by
  intro st rows
  by_cases hrows : rows = []
  · subst hrows
    refine ⟨rfl, fun _ => rfl, fun key => ?_⟩
    simp [save_listings, keptIds]
  · refine ⟨?_, fun h => absurd h hrows, fun key => ?_⟩
    · rw [show save_listings st rows = saveLoop (st, 0) rows from by
        simp [save_listings, hrows]]
      rw [saveLoop_count]
      omega
    · rw [show save_listings st rows = saveLoop (st, 0) rows from by
        simp [save_listings, hrows]]
      exact mem_storeKeys_saveLoop rows st 0 key

/-- C10 witness: the skip/count theorem at a concrete two-row batch, one
row lacking a listing id (count 1 < input length 2), plus the empty-input
case. -/
theorem save_listings_skips_missing_ids_witness :
    (save_listings [] [⟨"ebay", "completed", some "1"⟩, ⟨"ebay", "completed", none⟩]).2 =
      ([⟨"ebay", "completed", some "1"⟩, (⟨"ebay", "completed", none⟩ : NRow)].filter
        (fun r => (truthyId r).isSome)).length ∧
    save_listings ([("k", ⟨"ebay", "completed", some "9"⟩)] : Store) [] =
      ([("k", ⟨"ebay", "completed", some "9"⟩)], 0) ∧
    ("ebay_completed_1" ∈
        storeKeys (save_listings []
          [⟨"ebay", "completed", some "1"⟩, ⟨"ebay", "completed", none⟩]).1 ↔
      "ebay_completed_1" ∈ storeKeys ([] : Store) ∨
      "ebay_completed_1" ∈ keptIds
        [⟨"ebay", "completed", some "1"⟩, ⟨"ebay", "completed", none⟩]) :=
  ⟨(save_listings_skips_missing_ids [] _).1,
   (save_listings_skips_missing_ids _ []).2.1 rfl,
   (save_listings_skips_missing_ids [] _).2.2 "ebay_completed_1"⟩

/-- The EMA recurrence preserves length. -/
theorem ema3_length : ∀ (l : List ℚ) (prev : ℚ), (ema3 prev l).length = l.length := by
  intro l
  induction l with
  | nil => intro prev; rfl
  | cons x xs ih => intro prev; simp [ema3, ih]

/-- The seeded EMA series has the length of its input. -/
theorem emaSeries_length (l : List ℚ) : (emaSeries l).length = l.length := by
  cases l with
  | nil => rfl
  | cons x xs => simp [emaSeries, ema3_length]

/-- Step recurrence of the tail EMA. -/
theorem ema3_getD_succ :
    ∀ (l : List ℚ) (prev : ℚ) (i : Nat), i + 1 < l.length →
      (ema3 prev l).getD (i + 1) 0 =
        l.getD (i + 1) 0 / 2 + (ema3 prev l).getD i 0 / 2 := by
  intro l
  induction l with
  | nil => intro prev i h; simp at h
  | cons x xs ih =>
    intro prev i h
    cases i with
    | zero =>
      cases xs with
      | nil => simp at h
      | cons y ys => simp [ema3]
    | succ j =>
      have hj : j + 1 < xs.length := by simpa using h
      simpa [ema3] using ih (x / 2 + prev / 2) j hj

/-- Step recurrence of the seeded EMA series: each value is the mean of
the current input value and the previous EMA value (α = 1/2). -/
theorem emaSeries_getD_succ :
    ∀ (l : List ℚ) (i : Nat), i + 1 < l.length →
      (emaSeries l).getD (i + 1) 0 =
        l.getD (i + 1) 0 / 2 + (emaSeries l).getD i 0 / 2 := by
  intro l i h
  cases l with
  | nil => simp at h
  | cons x xs =>
    cases i with
    | zero =>
      cases xs with
      | nil => simp at h
      | cons y ys => simp [emaSeries, ema3]
    | succ j =>
      have hj : j + 1 < xs.length := by simpa using h
      simpa [emaSeries] using ema3_getD_succ xs x j hj

/-- C9: for a non-empty table of dated price rows, the chart data holds
one point per distinct calendar date in ascending date order, each point
carrying the median of that date's prices; the EMA series is emitted
exactly when there are at least 3 points, has the same length, is seeded
at the first median, and obeys `ema[i] = x[i]/2 + ema[i-1]/2`
(α = 2/(3+1) = 1/2). -/
theorem trend_chart_spec :
    ∀ rows : List (Int × ℚ), rows ≠ [] →
      ((trend_chart rows).1.map Prod.fst).Sorted (· ≤ ·) ∧
      ((trend_chart rows).1.map Prod.fst).Nodup ∧
      (∀ d, d ∈ (trend_chart rows).1.map Prod.fst ↔ d ∈ rows.map Prod.fst) ∧
      (∀ d m, (d, m) ∈ (trend_chart rows).1 → m = medianQ (pricesAt rows d)) ∧
      ((trend_chart rows).2.isSome ↔ 3 ≤ (trend_chart rows).1.length) ∧
      (∀ e, (trend_chart rows).2 = some e →
        e.length = (trend_chart rows).1.length ∧
        e.headD 0 = ((trend_chart rows).1.map Prod.snd).headD 0 ∧
        ∀ i, i + 1 < e.length →
          e.getD (i + 1) 0 =
            ((trend_chart rows).1.map Prod.snd).getD (i + 1) 0 / 2 + e.getD i 0 / 2) := by
  intro rows _
  have hfst : (trend_chart rows).1.map Prod.fst = datesOf rows := by
    show ((datesOf rows).map (fun d => (d, medianQ (pricesAt rows d)))).map Prod.fst = datesOf rows
    rw [List.map_map]
    have hcomp : (Prod.fst ∘ fun d : Int => (d, medianQ (pricesAt rows d))) = id := rfl
    rw [hcomp, List.map_id]
  refine ⟨?_, ?_, ?_, ?_, ?_, ?_⟩
  · rw [hfst]
    exact List.sorted_insertionSort _ _
  · rw [hfst]
    exact (List.perm_insertionSort _ _).symm.nodup (List.nodup_dedup _)
  · intro d
    rw [hfst]
    unfold datesOf
    rw [List.mem_insertionSort, List.mem_dedup]
  · intro d m hm
    simp only [trend_chart, dailyMedian, List.mem_map] at hm
    obtain ⟨d', _, hd'⟩ := hm
    have h1 := congrArg Prod.fst hd'
    have h2 := congrArg Prod.snd hd'
    simp only at h1 h2
    subst h1
    exact h2.symm
  · simp only [trend_chart]
    by_cases h3 : 3 ≤ (dailyMedian rows).length
    · simp [h3]
    · simp [h3]
  · intro e he
    simp only [trend_chart] at he
    by_cases h3 : 3 ≤ (dailyMedian rows).length
    · rw [if_pos h3] at he
      obtain rfl : emaSeries ((dailyMedian rows).map Prod.snd) = e := by
        exact Option.some.inj he
      refine ⟨?_, ?_, ?_⟩
      · simp [trend_chart, emaSeries_length]
      · cases hdm : (dailyMedian rows).map Prod.snd with
        | nil => simp [trend_chart, hdm, emaSeries]
        | cons x xs => simp [trend_chart, hdm, emaSeries]
      · intro i hi
        have hlen : i + 1 < ((dailyMedian rows).map Prod.snd).length := by
          rwa [emaSeries_length] at hi
        simpa [trend_chart] using emaSeries_getD_succ _ i hlen
    · rw [if_neg h3] at he
      exact absurd he (Option.noConfusion)

/-- C9 witness: the aggregator theorem at the spec's own example rows
`[(d1,10),(d1,20),(d2,30)]` (two distinct dates, so no EMA), plus its
date-membership conclusion there. -/
theorem trend_chart_spec_witness :
    ((trend_chart [(1, 10), (1, 20), (2, 30)]).2.isSome ↔
      3 ≤ (trend_chart [(1, 10), (1, 20), (2, 30)]).1.length) ∧
    ((2 : Int) ∈ (trend_chart [(1, 10), (1, 20), (2, 30)]).1.map Prod.fst ↔
      (2 : Int) ∈ ([(1, 10), (1, 20), (2, 30)] : List (Int × ℚ)).map Prod.fst) :=
  ⟨(trend_chart_spec _ (List.cons_ne_nil _ _)).2.2.2.2.1,
   (trend_chart_spec _ (List.cons_ne_nil _ _)).2.2.1 2⟩

/-- The single-pass form of `prepare_df`'s row treatment once the time
column has been chosen for the table: keep a completed row with a
present positive price and matching title whose cell in the CHOSEN
column parses and lies within the lookback window, and project it to
the output columns. -/
def keptOut (useEnd : Bool) (cutoff : Int) (ql : String) (r : PRow) : Option OutRow :=
  if (r.status == "completed") && r.price.isSome &&
      (match r.price with | some p => decide (0 < p) | none => false) &&
      (ql == "" || strContains (strLower r.title) ql) then
    match pcell useEnd r with
    | some t => if cutoff ≤ t then some ⟨t, t, r.price.getD 0, r.title⟩ else none
    | none => none
  else none

/-- C6 counterexample: two rows, both completed with price 10 and title
matching the query, the first with a parsed `end_time`, the second with
a null `end_time` but a perfectly recent `start_time`.  The claim's
per-row fallback would keep both rows; the code chooses the `end_time`
column once for the whole table and drops the second row, so the output
has 1 row while 2 rows satisfy the claim's keep-criterion
(`specKeepRow`). -/
theorem prepare_df_no_per_row_fallback :
    (([⟨"completed", some 10, "x", some (some 999999), none⟩,
       ⟨"completed", some 10, "x", some none, some (some 999999)⟩] : List PRow).filter
      (specKeepRow 1000000 10 "x")).length = 2 ∧
    (prepare_df 1000000
      [⟨"completed", some 10, "x", some (some 999999), none⟩,
       ⟨"completed", some 10, "x", some none, some (some 999999)⟩] "x" 10).length = 1 := by
  constructor
  · rfl
  · rfl

/-- The title-filter stage with its emptiness guard collapses to one
filter whose predicate is vacuous for an empty query. -/
theorem filter_if_empty (ql : String) (l : List PRow) (tf : PRow → Bool) :
    (if ql = "" then l else l.filter tf) = l.filter (fun r => ql == "" || tf r) := by
  by_cases hq : ql = ""
  · simp [hq]
  · have hb : (ql == "") = false := beq_eq_false_iff_ne.mpr hq
    simp [hq, hb]

/-- A row kept by `keptOut` carries `ts = dt`. -/
theorem keptOut_ts_eq_dt (useEnd : Bool) (cutoff : Int) (ql : String) (r : PRow)
    (o : OutRow) (h : keptOut useEnd cutoff ql r = some o) : o.ts = o.dt := by
  unfold keptOut at h
  repeat split at h
  all_goals simp_all
  rw [← h]

/-- C6 (amended): once the table is non-empty and a time column exists,
the time column is chosen ONCE for the whole table — `end_time` when any
row carries the key, else `start_time`, with no per-row fallback — and
`prepare_df` returns exactly the rows kept by `keptOut` over that column
(completed status, present price > 0, case-insensitive title match, cell
within the lookback window), projected to `(dt, ts, price, title)` with
`ts = dt` in epoch seconds, in chronological order. -/
theorem prepare_df_characterization :
    ∀ (now : Int) (rows : List PRow) (query_substr : String) (lookback_days : Int),
      rows ≠ [] →
      (rows.any (fun r => r.end_time.isSome) || rows.any (fun r => r.start_time.isSome)) = true →
      (prepare_df now rows query_substr lookback_days).Perm
        (rows.filterMap (keptOut (rows.any (fun r => r.end_time.isSome))
          (now - lookback_days * 86400) (strLower (strStrip query_substr)))) ∧
      (prepare_df now rows query_substr lookback_days).Sorted dtLe ∧
      (∀ orow ∈ prepare_df now rows query_substr lookback_days, orow.ts = orow.dt) := by
  intro now rows query_substr lookback_days hne hcol
  have hemp : rows.isEmpty = false := by
    cases rows with
    | nil => exact absurd rfl hne
    | cons r rest => rfl
  have hnand : (!rows.any (fun r => r.end_time.isSome) &&
      !rows.any (fun r => r.start_time.isSome)) = false := by
    cases he : rows.any (fun r => r.end_time.isSome) with
    | true => rfl
    | false =>
      cases hs : rows.any (fun r => r.start_time.isSome) with
      | true => rfl
      | false => rw [he, hs] at hcol; exact absurd hcol (by decide)
  have hpipe : prepare_df now rows query_substr lookback_days =
      (rows.filterMap (keptOut (rows.any (fun r => r.end_time.isSome))
        (now - lookback_days * 86400) (strLower (strStrip query_substr)))).insertionSort dtLe := by
    unfold prepare_df
    rw [hemp]
    simp only [Bool.false_eq_true, if_false]
    rw [hnand]
    simp only [Bool.false_eq_true, if_false]
    congr 1
    rw [filter_if_empty, List.filter_filter, List.filter_filter, List.filter_filter,
      List.filterMap_filter, List.filter_filterMap, List.map_filterMap]
    apply List.filterMap_congr
    intro r _
    unfold keptOut
    rcases hpr : r.price with _ | p
    · simp [hpr, Option.filter]
    · rcases hp : pcell (rows.any fun r => r.end_time.isSome) r with _ | t
      · simp [hpr, hp, Option.filter]
      · simp [hpr, hp, Option.filter]
        split_ifs <;> simp_all
  refine ⟨?_, ?_, ?_⟩
  · rw [hpipe]
    exact List.perm_insertionSort _ _
  · rw [hpipe]
    exact List.sorted_insertionSort _ _
  · intro orow hmem
    rw [hpipe, List.mem_insertionSort] at hmem
    obtain ⟨r, _, hr⟩ := List.mem_filterMap.mp hmem
    exact keptOut_ts_eq_dt _ _ _ _ _ hr

/-- C6 witness: the characterization theorem at a concrete two-row table
with an `end_time` column. -/
theorem prepare_df_characterization_witness :
    (prepare_df 1000000
        [⟨"completed", some 10, "x", some (some 999999), none⟩,
         ⟨"completed", some 10, "x", some (some 500000), none⟩] "x" 10).Sorted dtLe ∧
    (prepare_df 1000000
        [⟨"completed", some 10, "x", some (some 999999), none⟩,
         ⟨"completed", some 10, "x", some (some 500000), none⟩] "x" 10).Perm
      ([⟨"completed", some 10, "x", some (some 999999), none⟩,
        (⟨"completed", some 10, "x", some (some 500000), none⟩ : PRow)].filterMap
        (keptOut true (1000000 - 10 * 86400) (strLower (strStrip "x")))) := by
  have h := prepare_df_characterization 1000000
    [⟨"completed", some 10, "x", some (some 999999), none⟩,
     ⟨"completed", some 10, "x", some (some 500000), none⟩] "x" 10
    (List.cons_ne_nil _ _) (by decide)
  exact ⟨h.2.1, h.1⟩

/-- Number of calls in a trace that returned successfully (counted by
`requests_used`). -/
def countOk (t : List CallRec) : Nat :=
  (t.filter (fun r => match r.outcome with | .ok _ => true | _ => false)).length

/-- The budget invariant carried through the run: `requests_used` counts
exactly the successful calls so far, and every call in the trace was
issued while strictly fewer than `budget` calls had succeeded. -/
def BudgetInv (budget : Nat) (st : RunState) : Prop :=
  st.requestsUsed = countOk st.trace ∧
  ∀ i, i < st.trace.length → countOk (st.trace.take i) < budget

/-- The count `countOk` distributes over append. -/
theorem countOk_append (a b : List CallRec) : countOk (a ++ b) = countOk a + countOk b := by
  simp [countOk, List.filter_append]

/-- A single record contributes at most one success. -/
theorem countOk_single_le (c : CallRec) : countOk [c] ≤ 1 := by
  cases hc : c.outcome <;> simp [countOk, List.filter, hc]

/-- Appending one record preserves the prefix property when the current
success count is still under budget. -/
theorem budgetPrefix_append (budget : Nat) (t : List CallRec) (c : CallRec)
    (hpre : ∀ i, i < t.length → countOk (t.take i) < budget)
    (hlt : countOk t < budget) :
    ∀ i, i < (t ++ [c]).length → countOk ((t ++ [c]).take i) < budget := by
  intro i hi
  have hi2 : i < t.length + 1 := by simpa using hi
  rcases Nat.lt_or_ge i t.length with h | h
  · rw [List.take_append_of_le_length (Nat.le_of_lt h)]
    exact hpre i h
  · have heq : i = t.length := by omega
    subst heq
    rw [List.take_left]
    exact hlt

/-- The page loop preserves the budget invariant. -/
theorem runPages_budgetInv (o : Oracle) (budget : Nat) (q : String) :
    ∀ (fuel page entries consec : Nat) (st : RunState),
      BudgetInv budget st →
      BudgetInv budget (runPages o budget q fuel page entries consec st).1 := by
  intro fuel
  induction fuel with
  | zero => intro page entries consec st h; exact h
  | succ n ih =>
    intro page entries consec st h
    rw [runPages]
    by_cases hb : budget ≤ st.requestsUsed
    · rw [if_pos hb]; exact h
    · rw [if_neg hb]
      have hlt : countOk st.trace < budget := by
        rw [← h.1]; exact Nat.lt_of_not_le hb
      cases ho : o q page entries with
      | ok rows =>
        dsimp only
        have hinv1 : BudgetInv budget
            { st with requestsUsed := st.requestsUsed + 1,
                      trace := st.trace ++ [⟨q, page, entries, .ok rows⟩] } := by
          constructor
          · simp only []
            rw [countOk_append, h.1]
            simp [countOk, List.filter]
          · simp only []
            exact budgetPrefix_append budget st.trace _ h.2 hlt
        by_cases hrows : rows = []
        · rw [if_pos hrows]; exact hinv1
        · rw [if_neg hrows]
          exact ih _ _ _ _ ⟨hinv1.1, hinv1.2⟩
      | rateLimited =>
        dsimp only
        constructor
        · simp only []
          rw [countOk_append, h.1]
          simp [countOk, List.filter]
        · simp only []
          exact budgetPrefix_append budget st.trace _ h.2 hlt
      | fetchError =>
        dsimp only
        have hinv1 : BudgetInv budget
            { st with trace := st.trace ++ [⟨q, page, entries, .fetchError⟩] } := by
          constructor
          · simp only []
            rw [countOk_append, h.1]
            simp [countOk, List.filter]
          · simp only []
            exact budgetPrefix_append budget st.trace _ h.2 hlt
        by_cases h2 : consec + 1 = 2 ∧ 50 < entries
        · rw [if_pos h2]; exact ih _ _ _ _ hinv1
        · rw [if_neg h2]
          by_cases h3 : 3 ≤ consec + 1
          · rw [if_pos h3]; exact hinv1
          · rw [if_neg h3]; exact ih _ _ _ _ hinv1

/-- The query loop preserves the budget invariant. -/
theorem runQueries_budgetInv (o : Oracle) (budget maxPages entries0 : Nat) :
    ∀ (queries : List String) (st : RunState),
      BudgetInv budget st →
      BudgetInv budget (runQueries o budget maxPages entries0 queries st) := by
  intro queries
  induction queries with
  | nil => intro st h; exact h
  | cons q qs ih =>
    intro st h
    rw [runQueries]
    by_cases hc : (runPages o budget q maxPages 1 entries0 0 st).2 = true
    · rw [if_pos hc]
      exact ih _ (runPages_budgetInv o budget q _ _ _ _ st h)
    · rw [if_neg hc]
      exact runPages_budgetInv o budget q _ _ _ _ st h

/-- A trace whose every proper prefix is under budget has at most
`budget` successes in total. -/
theorem countOk_le_of_prefix (budget : Nat) (t : List CallRec)
    (h : ∀ i, i < t.length → countOk (t.take i) < budget) : countOk t ≤ budget := by
  rcases List.eq_nil_or_concat' t with rfl | ⟨init, last, rfl⟩
  · simp [countOk]
  · have hlast : countOk init < budget := by
      have := h init.length (by simp)
      rwa [List.take_left] at this
    have := countOk_single_le last
    rw [countOk_append]
    omega

/-- An upstream that fails every driver-level fetch (HTTP/parse failure
after the inner retries, or a normalization error on the page). -/
def errOracle : Oracle := fun _ _ _ => .fetchError

/-- C3 counterexample: with `request_budget = 1`, one query and three
pages of failing fetches, the driver issues 3 upstream calls — more than
the budget — because `requests_used` is incremented only after a fetch
RETURNS, so failed calls are never counted against the budget. -/
theorem mainRun_exceeds_budget_on_errors :
    (mainRun errOracle ["q"] 3 100 1 []).trace.length = 3 ∧
    1 < (mainRun errOracle ["q"] 3 100 1 []).trace.length :=
  ⟨rfl, by decide⟩

/-- C3 (amended): across the whole run, `requests_used` equals the number
of upstream calls that returned successfully; that number never exceeds
the budget; and every upstream call — successful or not — is issued only
while strictly fewer than `budget` calls have returned successfully, so
the run halts immediately (even mid-query) once the budget is reached.
(The returned state also carries `total_saved`, the partial total
reported at that point.)  Failed or rate-limited calls are not counted
against the budget. -/
theorem mainRun_budget_successful_calls :
    ∀ (o : Oracle) (queries : List String) (maxPages entries0 budget : Nat) (st0 : Store),
      (mainRun o queries maxPages entries0 budget st0).requestsUsed =
        countOk (mainRun o queries maxPages entries0 budget st0).trace ∧
      countOk (mainRun o queries maxPages entries0 budget st0).trace ≤ budget ∧
      (∀ i, i < (mainRun o queries maxPages entries0 budget st0).trace.length →
        countOk ((mainRun o queries maxPages entries0 budget st0).trace.take i) < budget) := by
  intro o queries maxPages entries0 budget st0
  have h0 : BudgetInv budget ⟨0, 0, st0, []⟩ := by
    constructor
    · rfl
    · intro i hi
      simp at hi
  have h := runQueries_budgetInv o budget maxPages entries0 queries _ h0
  exact ⟨h.1, countOk_le_of_prefix budget _ h.2, h.2⟩

/-- C3 witness: the budget theorem at a concrete run (budget 2, one
query, a succeeding upstream). -/
theorem mainRun_budget_successful_calls_witness :
    countOk (mainRun (fun _ _ _ => .ok []) ["a"] 3 100 2 []).trace ≤ 2 ∧
    countOk ((mainRun (fun _ _ _ => .ok []) ["a"] 3 100 2 []).trace.take 0) < 2 :=
  ⟨(mainRun_budget_successful_calls (fun _ _ _ => .ok []) ["a"] 3 100 2 []).2.1,
   (mainRun_budget_successful_calls (fun _ _ _ => .ok []) ["a"] 3 100 2 []).2.2 0 (by decide)⟩

/-- The page loop only appends to the trace; the appended calls all
belong to the current query, sit at pages from the current page onward,
and their page numbers strictly increase — the loop never re-fetches a
page. -/
theorem runPages_trace_extends (o : Oracle) (budget : Nat) (q : String) :
    ∀ (fuel page entries consec : Nat) (st : RunState),
      ∃ tNew, (runPages o budget q fuel page entries consec st).1.trace = st.trace ++ tNew ∧
        (∀ c ∈ tNew, c.query = q ∧ page ≤ c.page) ∧
        List.Chain' (fun a b => a.page < b.page) tNew := by
  intro fuel
  induction fuel with
  | zero =>
    intro page entries consec st
    exact ⟨[], by simp [runPages], by simp, by simp⟩
  | succ n ih =>
    intro page entries consec st
    rw [runPages]
    by_cases hb : budget ≤ st.requestsUsed
    · rw [if_pos hb]
      exact ⟨[], by simp, by simp, by simp⟩
    · rw [if_neg hb]
      cases ho : o q page entries with
      | ok rows =>
        dsimp only
        by_cases hrows : rows = []
        · rw [if_pos hrows]
          refine ⟨[⟨q, page, entries, .ok rows⟩], by simp, ?_, by simp⟩
          intro c hc
          rw [List.mem_singleton] at hc
          subst hc
          exact ⟨rfl, Nat.le_refl _⟩
        · rw [if_neg hrows]
          obtain ⟨t', ht', hprop, hchain⟩ := ih (page + 1) entries 0 _
          refine ⟨⟨q, page, entries, .ok rows⟩ :: t', ?_, ?_, ?_⟩
          · rw [ht']
            simp
          · intro c hc
            rcases List.mem_cons.mp hc with rfl | hc'
            · exact ⟨rfl, Nat.le_refl _⟩
            · exact ⟨(hprop c hc').1, Nat.le_of_succ_le (hprop c hc').2⟩
          · cases t' with
            | nil => simp
            | cons hd tl =>
              rw [List.chain'_cons]
              exact ⟨Nat.lt_of_succ_le (hprop hd (List.mem_cons_self hd tl)).2, hchain⟩
      | rateLimited =>
        dsimp only
        refine ⟨[⟨q, page, entries, .rateLimited⟩], by simp, ?_, by simp⟩
        intro c hc
        rw [List.mem_singleton] at hc
        subst hc
        exact ⟨rfl, Nat.le_refl _⟩
      | fetchError =>
        dsimp only
        by_cases h2 : consec + 1 = 2 ∧ 50 < entries
        · rw [if_pos h2]
          obtain ⟨t', ht', hprop, hchain⟩ := ih (page + 1) 50 (consec + 1) _
          refine ⟨⟨q, page, entries, .fetchError⟩ :: t', ?_, ?_, ?_⟩
          · rw [ht']
            simp
          · intro c hc
            rcases List.mem_cons.mp hc with rfl | hc'
            · exact ⟨rfl, Nat.le_refl _⟩
            · exact ⟨(hprop c hc').1, Nat.le_of_succ_le (hprop c hc').2⟩
          · cases t' with
            | nil => simp
            | cons hd tl =>
              rw [List.chain'_cons]
              exact ⟨Nat.lt_of_succ_le (hprop hd (List.mem_cons_self hd tl)).2, hchain⟩
        · rw [if_neg h2]
          by_cases h3 : 3 ≤ consec + 1
          · rw [if_pos h3]
            refine ⟨[⟨q, page, entries, .fetchError⟩], by simp, ?_, by simp⟩
            intro c hc
            rw [List.mem_singleton] at hc
            subst hc
            exact ⟨rfl, Nat.le_refl _⟩
          · rw [if_neg h3]
            obtain ⟨t', ht', hprop, hchain⟩ := ih (page + 1) entries (consec + 1) _
            refine ⟨⟨q, page, entries, .fetchError⟩ :: t', ?_, ?_, ?_⟩
            · rw [ht']
              simp
            · intro c hc
              rcases List.mem_cons.mp hc with rfl | hc'
              · exact ⟨rfl, Nat.le_refl _⟩
              · exact ⟨(hprop c hc').1, Nat.le_of_succ_le (hprop c hc').2⟩
            · cases t' with
              | nil => simp
              | cons hd tl =>
                rw [List.chain'_cons]
                exact ⟨Nat.lt_of_succ_le (hprop hd (List.mem_cons_self hd tl)).2, hchain⟩

/-- One failing fetch under budget: the error branch of the page loop. -/
theorem runPages_errStep (budget : Nat) (q : String) (fuel page entries consec : Nat)
    (st : RunState) (hru : st.requestsUsed < budget) :
    runPages errOracle budget q (fuel + 1) page entries consec st =
      (let st1 : RunState :=
        { st with trace := st.trace ++ [⟨q, page, entries, .fetchError⟩] }
       if consec + 1 = 2 ∧ 50 < entries then
         runPages errOracle budget q fuel (page + 1) 50 (consec + 1) st1
       else if 3 ≤ consec + 1 then (st1, true)
       else runPages errOracle budget q fuel (page + 1) entries (consec + 1) st1) := by
  rw [runPages, if_neg (Nat.not_le.mpr hru)]
  rfl

/-- Three consecutive failing fetches: the driver fetches the next page
with the same entries after the first error, reduces entries to 50 and
fetches the NEXT page (not the same one) after the second, and abandons
the query after the third, keeping the rest of the run alive. -/
theorem runPages_allErrors (budget : Nat) (q : String) :
    ∀ (k page entries : Nat) (st : RunState), 50 < entries → st.requestsUsed < budget →
      runPages errOracle budget q (k + 3) page entries 0 st =
        ({ st with trace := st.trace ++
            [⟨q, page, entries, .fetchError⟩,
             ⟨q, page + 1, entries, .fetchError⟩,
             ⟨q, page + 2, 50, .fetchError⟩] }, true) := by
  intro k page entries st hent hru
  have h33 : k + 3 = k + 2 + 1 := by omega
  rw [h33, runPages_errStep budget q (k + 2) page entries 0 st hru]
  dsimp only
  rw [if_neg (by simp)]
  rw [if_neg (by omega)]
  simp only [Nat.zero_add]
  have h22 : k + 2 = k + 1 + 1 := by omega
  rw [h22, runPages_errStep budget q (k + 1) (page + 1) entries 1
    { st with trace := st.trace ++ [⟨q, page, entries, .fetchError⟩] } hru]
  dsimp only
  rw [if_pos ⟨rfl, hent⟩]
  simp only [Nat.reduceAdd]
  rw [runPages_errStep budget q k (page + 2) 50 2
    { st with trace := st.trace ++ [⟨q, page, entries, .fetchError⟩] ++
        [⟨q, page + 1, entries, .fetchError⟩] } hru]
  dsimp only
  rw [if_neg (by simp)]
  rw [if_pos (by omega)]
  simp

/-- C5 counterexample: one query, three pages, every fetch failing.
After the second consecutive error the driver fetches PAGE 3 with the
reduced page size — the claim's "retries the same page" would make the
third call hit page 2 again, but the page numbers in the trace are
`[1, 2, 3]`, all distinct: no page is ever retried. -/
theorem driver_never_retries_same_page :
    (mainRun errOracle ["q"] 3 100 9 []).trace.map (fun r => (r.page, r.entries)) =
      [(1, 100), (2, 100), (3, 50)] ∧
    ((mainRun errOracle ["q"] 3 100 9 []).trace.map (fun r => r.page)).Nodup :=
  ⟨rfl, by decide⟩

/-- C5 (amended): page numbers within one query's page loop strictly
increase — the driver never retries a page.  On consecutive page errors
it proceeds to the NEXT page; after the second consecutive error it
reduces entries_per_page to 50 (only when currently above 50) for the
following page; after the third it abandons the query's remaining pages
and moves on to the next query, as the full two-query all-error run
shows: three calls per query at pages 1, 2, 3, entries dropping to 50 on
the third call, then the next query starting afresh. -/
theorem driver_error_escalation :
    (∀ (o : Oracle) (budget : Nat) (q : String)
       (fuel page entries consec ru ts : Nat) (store : Store),
      List.Chain' (fun a b => a.page < b.page)
        (runPages o budget q fuel page entries consec ⟨ru, ts, store, []⟩).1.trace) ∧
    (∀ (q1 q2 : String) (m entries budget : Nat) (st0 : Store),
      50 < entries → 3 ≤ m → 1 ≤ budget →
      (mainRun errOracle [q1, q2] m entries budget st0).trace.map
          (fun r => (r.query, r.page, r.entries)) =
        [(q1, 1, entries), (q1, 2, entries), (q1, 3, 50),
         (q2, 1, entries), (q2, 2, entries), (q2, 3, 50)]) := by
  constructor
  · intro o budget q fuel page entries consec ru ts store
    obtain ⟨tNew, ht, _, hchain⟩ :=
      runPages_trace_extends o budget q fuel page entries consec ⟨ru, ts, store, []⟩
    rw [ht]
    simpa using hchain
  · intro q1 q2 m entries budget st0 hent hm hb
    obtain ⟨k, rfl⟩ : ∃ k, m = k + 3 := ⟨m - 3, by omega⟩
    unfold mainRun
    rw [runQueries]
    rw [runPages_allErrors budget q1 k 1 entries ⟨0, 0, st0, []⟩ hent
      (by show 0 < budget; omega)]
    dsimp only
    rw [if_pos rfl]
    rw [runQueries]
    rw [runPages_allErrors budget q2 k 1 entries _ hent (by show 0 < budget; omega)]
    dsimp only
    rw [if_pos rfl]
    rw [runQueries]
    simp

/-- C5 witness: the amended theorem at a concrete oracle and at concrete
entries/pages/budget values. -/
theorem driver_error_escalation_witness :
    List.Chain' (fun a b => a.page < b.page)
      (runPages errOracle 9 "q" 3 1 100 0 ⟨0, 0, [], []⟩).1.trace ∧
    (mainRun errOracle ["a", "b"] 4 60 5 []).trace.map
        (fun r => (r.query, r.page, r.entries)) =
      [("a", 1, 60), ("a", 2, 60), ("a", 3, 50),
       ("b", 1, 60), ("b", 2, 60), ("b", 3, 50)] :=
  ⟨driver_error_escalation.1 errOracle 9 "q" 3 1 100 0 0 0 [],
   driver_error_escalation.2 "a" "b" 4 60 5 [] (by decide) (by decide) (by decide)⟩
